import Mathlib

/-!
Verification of the finite-volume flux operators and species-evolution
components in `src/evolve_momentum.cxx`, `src/evolve_density.cxx` and
`src/component.cxx`.

The numeric type is an abstract linear ordered field `K` (instantiated at `ℚ`
for concrete evaluations and at `ℝ` where `Real.log` semantics are needed),
idealising the C++ `BoutReal` double arithmetic.  The parallel (y) direction
of the mesh is modelled as a column indexed by `ℤ`; the `i` (x) and `k` (z)
loops of `Div_par_fvv` are independent and identical, so one column captures
the whole computation.  External collaborators (the limiter template
parameter, `sqrt`, `log`, the BOUT++ differential operators) enter as
explicit function parameters.  The field-aligned transform
`toFieldAligned`/`fromFieldAligned` is an external change of representation;
all statements are made on the aligned representation.
-/

namespace Hermes

/-- Left/right face values produced by a cell-edge reconstruction
(`Stencil1D.L` / `Stencil1D.R` in BOUT++). -/
structure Edges (K : Type) where
  L : K
  R : K

/-- A `CellEdges` limiter: from the `(m, c, p)` stencil values it computes the
left and right face values, as `cellboundary(s)` does for a `Stencil1D`. -/
def Limiter (K : Type) : Type := K → K → K → Edges K

variable {K : Type} [LinearOrderedField K]

/-- BOUT++ `SIGN`: `-1` for negative values, `+1` otherwise. -/
def SIGN (a : K) : K := if a < 0 then -1 else 1

/-- Three-argument minmod used by the MC limiter: zero when signs differ,
otherwise the value among `a`, `b`, `c` of minimum absolute value with the
sign of `a`. -/
def minmod3 (a b c : K) : K :=
  if a * b ≤ 0 ∨ a * c ≤ 0 then 0
  else SIGN a * min |a| (min |b| |c|)

/-- Modelled from the spec: the default `CellEdges = MC` monotonized-central
limiter (defined in BOUT++ `fv_ops.hxx`, which is not under `src/`): slope is
the minmod of `(p - c, (p - m)/2, c - m)`; the face values are
`c ∓ slope/2`. -/
def MC : Limiter K := fun m c p =>
  let slope := minmod3 (p - c) ((1 / 2 : K) * (p - m)) (c - m)
  { L := c - (1 / 2 : K) * slope, R := c + (1 / 2 : K) * slope }

/-- The y-direction mesh data consumed by `Div_par_fvv` for one x-index:
the first/last interior y-indices and the boundary classification
(`firstY`, `lastY`, `periodicY`). -/
structure YMesh where
  ystart : ℤ
  yend : ℤ
  firstY : Bool
  lastY : Bool
  periodicY : Bool
deriving DecidableEq

/-- The per-cell coordinate data consumed by `Div_par_fvv`:
Jacobian `J`, metric coefficient `g_22` and grid spacing `dy` along the
column. -/
structure YCoords (K : Type) where
  J : ℤ → K
  g_22 : ℤ → K
  dy : ℤ → K

/-- `ys` for one x-index: the guard cell `ystart - 1` is included unless the
column starts at a non-periodic physical boundary. -/
def ysOf (m : YMesh) : ℤ :=
  if ¬m.firstY ∨ m.periodicY then m.ystart - 1 else m.ystart

/-- `ye` for one x-index: the guard cell `yend + 1` is included unless the
column ends at a non-periodic physical boundary. -/
def yeOf (m : YMesh) : ℤ :=
  if ¬m.lastY ∨ m.periodicY then m.yend + 1 else m.yend

/-- `common_factor` for the right face of cell `j`:
`(J(j) + J(j+1)) / (sqrt(g_22(j)) + sqrt(g_22(j+1)))`. -/
def commonFactorR (c : YCoords K) (sqrtK : K → K) (j : ℤ) : K :=
  (c.J j + c.J (j + 1)) / (sqrtK (c.g_22 j) + sqrtK (c.g_22 (j + 1)))

/-- `flux_factor_rc = common_factor / (dy(j) * J(j))`. -/
def fluxFactorRC (c : YCoords K) (sqrtK : K → K) (j : ℤ) : K :=
  commonFactorR c sqrtK j / (c.dy j * c.J j)

/-- `flux_factor_rp = common_factor / (dy(j+1) * J(j+1))`. -/
def fluxFactorRP (c : YCoords K) (sqrtK : K → K) (j : ℤ) : K :=
  commonFactorR c sqrtK j / (c.dy (j + 1) * c.J (j + 1))

/-- `common_factor` for the left face of cell `j`:
`(J(j) + J(j-1)) / (sqrt(g_22(j)) + sqrt(g_22(j-1)))`. -/
def commonFactorL (c : YCoords K) (sqrtK : K → K) (j : ℤ) : K :=
  (c.J j + c.J (j - 1)) / (sqrtK (c.g_22 j) + sqrtK (c.g_22 (j - 1)))

/-- `flux_factor_lc = common_factor / (dy(j) * J(j))`. -/
def fluxFactorLC (c : YCoords K) (sqrtK : K → K) (j : ℤ) : K :=
  commonFactorL c sqrtK j / (c.dy j * c.J j)

/-- `flux_factor_lm = common_factor / (dy(j-1) * J(j-1))`. -/
def fluxFactorLM (c : YCoords K) (sqrtK : K → K) (j : ℤ) : K :=
  commonFactorL c sqrtK j / (c.dy (j - 1) * c.J (j - 1))

/-- The right face value `s.R` of the three-point reconstruction of `f` at
cell `j`. -/
def faceR (edges : Limiter K) (f : ℤ → K) (j : ℤ) : K :=
  (edges (f (j - 1)) (f j) (f (j + 1))).R

/-- The left face value `s.L` of the three-point reconstruction of `f` at
cell `j`. -/
def faceL (edges : Limiter K) (f : ℤ → K) (j : ℤ) : K :=
  (edges (f (j - 1)) (f j) (f (j + 1))).L

/-- Face-centered advecting velocity at the right face of cell `j`:
`vpar = 0.5 * (v(j) + v(j+1))`. -/
def vparR (v : ℤ → K) (j : ℤ) : K := (1 / 2 : K) * (v j + v (j + 1))

/-- Face-centered advecting velocity at the left face of cell `j`:
`vpar = 0.5 * (v(j) + v(j-1))`. -/
def vparL (v : ℤ → K) (j : ℤ) : K := (1 / 2 : K) * (v j + v (j - 1))

/-- The flux through the right face of cell `j` in `Div_par_fvv`
(evolve_momentum.cxx lines 96-128): the last point of a non-periodic domain
uses the boundary treatment (midpoint value when `fixflux`, otherwise a
wave-speed correction); interior faces classify the regime against
`amax = max(wave_speed(j), wave_speed(j+1))`. -/
def rightFlux (m : YMesh) (edges : Limiter K) (f v wave : ℤ → K)
    (fixflux : Bool) (j : ℤ) : K :=
  let vpar := vparR v j
  if m.lastY ∧ j = m.yend ∧ ¬m.periodicY then
    let bndryval := (1 / 2 : K) * (f j + f (j + 1))
    if fixflux then
      bndryval * vpar * vpar
    else
      faceR edges f j * vpar * faceR edges v j
        + wave j * (faceR edges f j * faceR edges v j - bndryval * vpar)
  else
    let amax := max (wave j) (wave (j + 1))
    if vpar > amax then
      faceR edges f j * vpar * faceR edges v j
    else if vpar < -amax then
      0
    else
      faceR edges f j * ((1 / 2 : K) * (vpar + amax)) * faceR edges v j

/-- The flux through the left face of cell `j` in `Div_par_fvv`
(evolve_momentum.cxx lines 133-162): the first point of a non-periodic
domain uses the boundary treatment; interior faces classify the regime
against `amax = max(wave_speed(j), wave_speed(j-1))`. -/
def leftFlux (m : YMesh) (edges : Limiter K) (f v wave : ℤ → K)
    (fixflux : Bool) (j : ℤ) : K :=
  let vpar := vparL v j
  if m.firstY ∧ j = m.ystart ∧ ¬m.periodicY then
    let bndryval := (1 / 2 : K) * (f j + f (j - 1))
    if fixflux then
      bndryval * vpar * vpar
    else
      faceL edges f j * vpar * faceL edges v j
        - wave j * (faceL edges f j * faceL edges v j - bndryval * vpar)
  else
    let amax := max (wave j) (wave (j - 1))
    if vpar < -amax then
      faceL edges f j * vpar * faceL edges v j
    else if vpar > amax then
      0
    else
      faceL edges f j * ((1 / 2 : K) * (vpar - amax)) * faceL edges v j

/-- The contribution of the loop iteration at cell `j` to `result(y)`:
`result(j) += flux_r * flux_factor_rc; result(j+1) -= flux_r * flux_factor_rp;
result(j) -= flux_l * flux_factor_lc; result(j-1) += flux_l * flux_factor_lm`. -/
def divParFvvContrib (m : YMesh) (c : YCoords K) (sqrtK : K → K)
    (edges : Limiter K) (f v wave : ℤ → K) (fixflux : Bool) (j y : ℤ) : K :=
  (if y = j then
      rightFlux m edges f v wave fixflux j * fluxFactorRC c sqrtK j
        - leftFlux m edges f v wave fixflux j * fluxFactorLC c sqrtK j
    else 0)
  + (if y = j + 1 then
      -(rightFlux m edges f v wave fixflux j * fluxFactorRP c sqrtK j)
    else 0)
  + (if y = j - 1 then
      leftFlux m edges f v wave fixflux j * fluxFactorLM c sqrtK j
    else 0)

/-- `FV::Div_par_fvv` on one column, on the field-aligned representation:
the result field starts from zero and accumulates the face-flux
contributions of every loop iteration `j ∈ [ys, ye]`. -/
def Div_par_fvv (m : YMesh) (c : YCoords K) (sqrtK : K → K)
    (edges : Limiter K) (f v wave : ℤ → K) (fixflux : Bool) (y : ℤ) : K :=
  ∑ j in Finset.Icc (ysOf m) (yeOf m),
    divParFvvContrib m c sqrtK edges f v wave fixflux j y

/-! ### Checked entry point (`ASSERT1` precondition) -/

/-- A field tagged with the mesh it is defined on, for the compatibility
precondition of `Div_par_fvv`. -/
structure TaggedField (K : Type) where
  mesh : YMesh
  data : ℤ → K

/-- Modelled from the spec: BOUT++ `areFieldsCompatible` (not under `src/`)
holds when the two fields are defined on the same mesh/discretization. -/
def areFieldsCompatible (a b : TaggedField K) : Bool :=
  decide (a.mesh = b.mesh)

/-- The error raised by a failed `ASSERT1(areFieldsCompatible(...))`. -/
inductive DivParError where
  | incompatibleFields
deriving DecidableEq

/-- `FV::Div_par_fvv` with its entry assertions (evolve_momentum.cxx lines
15-16): `ASSERT1(areFieldsCompatible(f, v))` and
`ASSERT1(areFieldsCompatible(f, wave_speed))` fail with an
incompatible-fields error before any computation. -/
def Div_par_fvv_checked (c : YCoords K) (sqrtK : K → K) (edges : Limiter K)
    (f v wave : TaggedField K) (fixflux : Bool) :
    Except DivParError (ℤ → K) :=
  if ¬areFieldsCompatible f v then
    .error .incompatibleFields
  else if ¬areFieldsCompatible f wave then
    .error .incompatibleFields
  else
    .ok (Div_par_fvv f.mesh c sqrtK edges f.data v.data wave.data fixflux)

/-! ### Low-density regularization helpers (evolve_density.cxx lines 13-34) -/

/-- Anonymous-namespace `floor` (evolve_density.cxx lines 14-18):
returns `min` when the value is below it. -/
def floorVal (value min_ : K) : K :=
  if value < min_ then min_ else value

/-- Anonymous-namespace `clamp` (evolve_density.cxx lines 20-34), per point:
values below `lo` become `lo`, values above `hi` become `hi`. -/
def clampVal (x lo hi : K) : K :=
  if x < lo then lo else if x > hi then hi else x

/-- The argument of the logarithm in the low-density parallel diffusion
coefficient (evolve_density.cxx lines 175-176):
`density_floor / clamp(n, 1e-6 * density_floor, density_floor)`. -/
def logArg (density_floor n : K) : K :=
  density_floor / clampVal n (1e-6 * density_floor) density_floor

/-! ### The `finally` phase of the two components

State entries are `Option`-valued: `none` means not set, and a `get` on an
absent entry fails loudly (the whole call returns `none`,
MissingStateFieldError).  A C++ `Field3D` local variable that may still be
default-constructed is modelled by `FieldVal`. -/

/-- A `Field3D` variable: either default-constructed with no data
(`unallocated`) or holding data. -/
inductive FieldVal (K ι : Type) where
  | unallocated
  | val (f : ι → K)

/-- The `sound_speed` local of `EvolveDensity::finally` (lines 152-159) and
`EvolveMomentum::finally` (lines 230-236):

```
Field3D sound_speed;
if (state.isSet("sound_speed")) {
  Field3D sound_speed = get<Field3D>(state["sound_speed"]);
} else {
  Field3D T = get<Field3D>(species["temperature"]);
  sound_speed = sqrt(T);
}
```

The declaration inside the `if` branch introduces a new inner variable that
shadows the outer one and is discarded at the end of the branch, so when the
state has `sound_speed` set the outer variable is left default-constructed
(unallocated) and the species temperature is not read; otherwise the outer
variable is assigned `sqrt(T)` from the (required) species temperature. -/
def finallySoundSpeedVar {ι : Type} (sqrtK : K → K)
    (stateSound temperature : Option (ι → K)) : Option (FieldVal K ι) :=
  match stateSound with
  | some _ => some FieldVal.unallocated
  | none =>
    match temperature with
    | none => none
    | some T => some (FieldVal.val fun y => sqrtK (T y))

/-- The state entries read by `EvolveDensity::finally`. -/
structure DensityStateIn (K ι : Type) where
  density : Option (ι → K)
  phi : Option (ι → K)
  velocity : Option (ι → K)
  sound_speed : Option (ι → K)
  temperature : Option (ι → K)
  density_source : Option (ι → K)

/-- The configuration of an `EvolveDensity` component that `finally` uses. -/
structure DensityOptions (K ι : Type) where
  low_n_diffuse : Bool
  low_n_diffuse_perp : Bool
  hyper_z : Bool
  density_floor : K
  source : ι → K

/-- The external differential operators called by `EvolveDensity::finally`,
with the boundary-flux/poloidal-flow flags absorbed. -/
structure DensityOps (K ι : Type) where
  divExB : (ι → K) → (ι → K) → ι → K
  div_par : (ι → K) → (ι → K) → (ι → K) → ι → K
  divParKGradPar : (ι → K) → (ι → K) → ι → K
  divPerpLap : (ι → K) → (ι → K) → ι → K
  d4dz4 : (ι → K) → ι → K

/-- `EvolveDensity::finally` (evolve_density.cxx lines 126-199), returning
`ddt(N)`; `none` when a required `get` fails or an operator is handed the
unallocated `sound_speed` variable.  `sqrtMeMp` is the constant
`sqrt(SI::Me / SI::Mp)`. -/
def evolveDensity_finally {ι : Type} (sqrtK logK : K → K) (sqrtMeMp : K)
    (dy g22 dz : ι → K) (ops : DensityOps K ι) (opts : DensityOptions K ι)
    (st : DensityStateIn K ι) : Option (ι → K) :=
  match st.density with
  | none => none
  | some N =>
    let ddt0 : ι → K :=
      match st.phi with
      | some phi => fun y => -(ops.divExB N phi y)
      | none => fun _ => 0
    let ddt1 : Option (ι → K) :=
      match st.velocity with
      | none => some ddt0
      | some V =>
        match finallySoundSpeedVar sqrtK st.sound_speed st.temperature with
        | none => none
        | some FieldVal.unallocated => none
        | some (FieldVal.val cs) =>
          let wave : ι → K :=
            if st.phi.isSome then fun y => sqrtMeMp * cs y else cs
          some fun y => ddt0 y - ops.div_par N V wave y
    match ddt1 with
    | none => none
    | some d1 =>
      let d2 : ι → K :=
        if opts.low_n_diffuse then
          fun y => d1 y
            + ops.divParKGradPar
                (fun z => dy z ^ 2 * g22 z * logK (logArg opts.density_floor (N z)))
                N y
        else d1
      let d3 : ι → K :=
        if opts.low_n_diffuse_perp then
          fun y => d2 y
            + ops.divPerpLap
                (fun z => opts.density_floor / floorVal (N z) (1e-3 * opts.density_floor))
                N y
        else d2
      let d4 : ι → K :=
        if opts.hyper_z then fun y => d3 y - dz y ^ 4 * ops.d4dz4 N y else d3
      let Sn : ι → K :=
        match st.density_source with
        | some ds => fun y => opts.source y + ds y
        | none => opts.source
      some fun y => d4 y + Sn y

/-- The state entries read by `EvolveMomentum::transform` and
`EvolveMomentum::finally`. -/
structure MomentumStateIn (K ι : Type) where
  density : Option (ι → K)
  AA : Option K
  phi : Option (ι → K)
  velocity : Option (ι → K)
  sound_speed : Option (ι → K)
  temperature : Option (ι → K)
  pressure : Option (ι → K)
  momentum_source : Option (ι → K)

/-- The external differential operators called by `EvolveMomentum::finally`.
`div_par_fvv` takes the `fixflux` flag as its last argument. -/
structure MomentumOps (K ι : Type) where
  divExB : (ι → K) → (ι → K) → ι → K
  div_par_fvv : (ι → K) → (ι → K) → (ι → K) → Bool → ι → K
  grad_par : (ι → K) → ι → K

/-- `EvolveMomentum::transform` (evolve_momentum.cxx lines 193-205):
publishes `momentum = NV`, then unconditionally reads the species density and
atomic mass `AA` (failing loudly when either is absent) and publishes
`velocity = NV / (AA * N)`.  Returns the pair (momentum, velocity). -/
def evolveMomentum_transform {ι : Type} (NV : ι → K)
    (density : Option (ι → K)) (AA : Option K) :
    Option ((ι → K) × (ι → K)) :=
  match density with
  | none => none
  | some N =>
    match AA with
    | none => none
    | some A => some (NV, fun y => NV y / (A * N y))

/-- `EvolveMomentum::finally` (evolve_momentum.cxx lines 207-250), returning
`ddt(NV)`; `none` when a required `get` fails or `Div_par_fvv` is handed the
unallocated `sound_speed` variable. -/
def evolveMomentum_finally {ι : Type} (sqrtK : K → K)
    (ops : MomentumOps K ι) (st : MomentumStateIn K ι) (NV : ι → K) :
    Option (ι → K) :=
  let ddt0 : ι → K :=
    match st.phi with
    | some phi => fun y => -(ops.divExB NV phi y)
    | none => fun _ => 0
  match st.density with
  | none => none
  | some N =>
    match st.velocity with
    | none => none
    | some V =>
      match finallySoundSpeedVar sqrtK st.sound_speed st.temperature with
      | none => none
      | some FieldVal.unallocated => none
      | some (FieldVal.val cs) =>
        let ddt1 : ι → K := fun y => ddt0 y - ops.div_par_fvv N V cs false y
        let ddt2 : ι → K :=
          match st.pressure with
          | some P => fun y => ddt1 y - ops.grad_par P y
          | none => ddt1
        let ddt3 : ι → K :=
          match st.momentum_source with
          | some ms => fun y => ddt2 y + ms y
          | none => ddt2
        some ddt3

/-! ## Helper lemmas -/

/-- The MC limiter on a constant stencil returns the constant at both faces. -/
lemma MC_const (a : K) : MC a a a = ⟨a, a⟩ := by
  simp [MC, minmod3]

/-- With zero velocity the right-face flux vanishes for any limiter that
reconstructs zero faces from a zero stencil. -/
lemma rightFlux_zero_v (m : YMesh) (f v wave : ℤ → K) (fixflux : Bool)
    (j : ℤ) (hv : ∀ y, v y = 0) :
    rightFlux m MC f v wave fixflux j = 0 := by
  have hface : faceR (K := K) MC v j = 0 := by
    simp [faceR, hv, MC_const]
  have hvpar : vparR v j = 0 := by simp [vparR, hv]
  unfold rightFlux
  rw [hvpar, hface]
  split_ifs <;> simp

/-- With zero velocity the left-face flux vanishes. -/
lemma leftFlux_zero_v (m : YMesh) (f v wave : ℤ → K) (fixflux : Bool)
    (j : ℤ) (hv : ∀ y, v y = 0) :
    leftFlux m MC f v wave fixflux j = 0 := by
  have hface : faceL (K := K) MC v j = 0 := by
    simp [faceL, hv, MC_const]
  have hvpar : vparL v j = 0 := by simp [vparL, hv]
  unfold leftFlux
  rw [hvpar, hface]
  split_ifs <;> simp

/-! ## Concrete fixtures for witnesses -/

/-- A one-processor slab mesh with four interior cells. -/
def wMesh : YMesh := ⟨0, 3, true, true, false⟩

/-- Unit coordinates: `J = g_22 = dy = 1`. -/
def wCoords : YCoords ℚ := ⟨fun _ => 1, fun _ => 1, fun _ => 1⟩

/-- A concrete square-root stand-in for witnesses (the embedding takes
`sqrt` as a parameter; its value is irrelevant to the statements). -/
def wSqrt : ℚ → ℚ := fun _ => 1

/-- Constant field 1. -/
def wOne : ℤ → ℚ := fun _ => 1

/-- Constant field 2. -/
def wTwo : ℤ → ℚ := fun _ => 2

/-- Constant field 0. -/
def wZero : ℤ → ℚ := fun _ => 0

/-! ## Claims -/

/-- C1: in `Div_par_fvv`, at every interior (non-physical-boundary) right
face, with `vpar = 0.5*(v(j)+v(j+1))` and
`amax = max(wave_speed(j), wave_speed(j+1))`: if `vpar > amax` the flux is
the pure upwind value `s.R * vpar * sv.R`; if `vpar < -amax` it is `0`;
otherwise — including the marginal case `vpar = amax` — it is the subsonic
blend `s.R * 0.5 * (vpar + amax) * sv.R`.  The left face is the mirror
image with blend weight `0.5 * (vpar - amax)`. -/
theorem C1_interior_face_regimes (m : YMesh) (edges : Limiter K)
    (f v wave : ℤ → K) (fixflux : Bool) (j : ℤ)
    (hw : ∀ y, 0 ≤ wave y)
    (hR : ¬(m.lastY ∧ j = m.yend ∧ ¬m.periodicY))
    (hL : ¬(m.firstY ∧ j = m.ystart ∧ ¬m.periodicY)) :
    ((vparR v j > max (wave j) (wave (j + 1)) →
        rightFlux m edges f v wave fixflux j
          = faceR edges f j * vparR v j * faceR edges v j) ∧
      (vparR v j < -max (wave j) (wave (j + 1)) →
        rightFlux m edges f v wave fixflux j = 0) ∧
      (-max (wave j) (wave (j + 1)) ≤ vparR v j →
        vparR v j ≤ max (wave j) (wave (j + 1)) →
        rightFlux m edges f v wave fixflux j
          = faceR edges f j
              * ((1 / 2 : K) * (vparR v j + max (wave j) (wave (j + 1))))
              * faceR edges v j))
    ∧
    ((vparL v j < -max (wave j) (wave (j - 1)) →
        leftFlux m edges f v wave fixflux j
          = faceL edges f j * vparL v j * faceL edges v j) ∧
      (vparL v j > max (wave j) (wave (j - 1)) →
        leftFlux m edges f v wave fixflux j = 0) ∧
      (-max (wave j) (wave (j - 1)) ≤ vparL v j →
        vparL v j ≤ max (wave j) (wave (j - 1)) →
        leftFlux m edges f v wave fixflux j
          = faceL edges f j
              * ((1 / 2 : K) * (vparL v j - max (wave j) (wave (j - 1))))
              * faceL edges v j)) := by
  have haR : (0 : K) ≤ max (wave j) (wave (j + 1)) :=
    le_trans (hw j) (le_max_left _ _)
  have haL : (0 : K) ≤ max (wave j) (wave (j - 1)) :=
    le_trans (hw j) (le_max_left _ _)
  constructor
  · refine ⟨fun h => ?_, fun h => ?_, fun h1 h2 => ?_⟩
    · unfold rightFlux
      rw [if_neg hR, if_pos h]
    · unfold rightFlux
      rw [if_neg hR, if_neg (by simp only [not_lt]; linarith), if_pos h]
    · unfold rightFlux
      rw [if_neg hR, if_neg (not_lt.mpr h2), if_neg (not_lt.mpr h1)]
  · refine ⟨fun h => ?_, fun h => ?_, fun h1 h2 => ?_⟩
    · unfold leftFlux
      rw [if_neg hL, if_pos h]
    · unfold leftFlux
      rw [if_neg hL, if_neg (by simp only [not_lt]; linarith), if_pos h]
    · unfold leftFlux
      rw [if_neg hL, if_neg (not_lt.mpr h1), if_neg (not_lt.mpr h2)]

/-- Witness for C1 at a concrete interior face: mesh `[0,3]`, `j = 1`,
`f = 1`, `v = 2`, `wave_speed = 1`. -/
theorem C1_interior_face_regimes_witness :
    ((vparR wTwo 1 > max (wOne 1) (wOne (1 + 1)) →
        rightFlux wMesh MC wOne wTwo wOne false 1
          = faceR MC wOne 1 * vparR wTwo 1 * faceR MC wTwo 1) ∧
      (vparR wTwo 1 < -max (wOne 1) (wOne (1 + 1)) →
        rightFlux wMesh MC wOne wTwo wOne false 1 = 0) ∧
      (-max (wOne 1) (wOne (1 + 1)) ≤ vparR wTwo 1 →
        vparR wTwo 1 ≤ max (wOne 1) (wOne (1 + 1)) →
        rightFlux wMesh MC wOne wTwo wOne false 1
          = faceR MC wOne 1
              * ((1 / 2 : ℚ) * (vparR wTwo 1 + max (wOne 1) (wOne (1 + 1))))
              * faceR MC wTwo 1))
    ∧
    ((vparL wTwo 1 < -max (wOne 1) (wOne (1 - 1)) →
        leftFlux wMesh MC wOne wTwo wOne false 1
          = faceL MC wOne 1 * vparL wTwo 1 * faceL MC wTwo 1) ∧
      (vparL wTwo 1 > max (wOne 1) (wOne (1 - 1)) →
        leftFlux wMesh MC wOne wTwo wOne false 1 = 0) ∧
      (-max (wOne 1) (wOne (1 - 1)) ≤ vparL wTwo 1 →
        vparL wTwo 1 ≤ max (wOne 1) (wOne (1 - 1)) →
        leftFlux wMesh MC wOne wTwo wOne false 1
          = faceL MC wOne 1
              * ((1 / 2 : ℚ) * (vparL wTwo 1 - max (wOne 1) (wOne (1 - 1))))
              * faceL MC wTwo 1)) :=
  C1_interior_face_regimes wMesh MC wOne wTwo wOne false 1
    (fun _ => zero_le_one) (by decide) (by decide)

/-- C3: in `Div_par_fvv`, at the last (resp. first) y-point of a
non-periodic domain the regime classification is bypassed: with
`fixflux = true` the face flux is the midpoint value
`bndryval * vpar * vpar` with `bndryval = 0.5*(s.c + s.p)` (resp.
`0.5*(s.c + s.m)`); with `fixflux = false` the right-face flux is
`s.R * vpar * sv.R + wave_speed(j) * (s.R * sv.R - bndryval * vpar)` and the
left-face flux is
`s.L * vpar * sv.L - wave_speed(j) * (s.L * sv.L - bndryval * vpar)`. -/
theorem C3_boundary_face_fluxes (m : YMesh) (edges : Limiter K)
    (f v wave : ℤ → K)
    (hlast : m.lastY = true) (hfirst : m.firstY = true)
    (hper : m.periodicY = false) :
    rightFlux m edges f v wave true m.yend
      = ((1 / 2 : K) * (f m.yend + f (m.yend + 1)))
          * vparR v m.yend * vparR v m.yend
    ∧ rightFlux m edges f v wave false m.yend
      = faceR edges f m.yend * vparR v m.yend * faceR edges v m.yend
          + wave m.yend
            * (faceR edges f m.yend * faceR edges v m.yend
                - ((1 / 2 : K) * (f m.yend + f (m.yend + 1))) * vparR v m.yend)
    ∧ leftFlux m edges f v wave true m.ystart
      = ((1 / 2 : K) * (f m.ystart + f (m.ystart - 1)))
          * vparL v m.ystart * vparL v m.ystart
    ∧ leftFlux m edges f v wave false m.ystart
      = faceL edges f m.ystart * vparL v m.ystart * faceL edges v m.ystart
          - wave m.ystart
            * (faceL edges f m.ystart * faceL edges v m.ystart
                - ((1 / 2 : K) * (f m.ystart + f (m.ystart - 1))) * vparL v m.ystart) := by
  refine ⟨?_, ?_, ?_, ?_⟩ <;>
    simp [rightFlux, leftFlux, hlast, hfirst, hper]

/-- Witness for C3 on the concrete slab mesh `[0,3]`. -/
theorem C3_boundary_face_fluxes_witness :
    rightFlux wMesh MC wOne wTwo wOne true wMesh.yend
      = ((1 / 2 : ℚ) * (wOne wMesh.yend + wOne (wMesh.yend + 1)))
          * vparR wTwo wMesh.yend * vparR wTwo wMesh.yend
    ∧ rightFlux wMesh MC wOne wTwo wOne false wMesh.yend
      = faceR MC wOne wMesh.yend * vparR wTwo wMesh.yend * faceR MC wTwo wMesh.yend
          + wOne wMesh.yend
            * (faceR MC wOne wMesh.yend * faceR MC wTwo wMesh.yend
                - ((1 / 2 : ℚ) * (wOne wMesh.yend + wOne (wMesh.yend + 1)))
                    * vparR wTwo wMesh.yend)
    ∧ leftFlux wMesh MC wOne wTwo wOne true wMesh.ystart
      = ((1 / 2 : ℚ) * (wOne wMesh.ystart + wOne (wMesh.ystart - 1)))
          * vparL wTwo wMesh.ystart * vparL wTwo wMesh.ystart
    ∧ leftFlux wMesh MC wOne wTwo wOne false wMesh.ystart
      = faceL MC wOne wMesh.ystart * vparL wTwo wMesh.ystart * faceL MC wTwo wMesh.ystart
          - wOne wMesh.ystart
            * (faceL MC wOne wMesh.ystart * faceL MC wTwo wMesh.ystart
                - ((1 / 2 : ℚ) * (wOne wMesh.ystart + wOne (wMesh.ystart - 1)))
                    * vparL wTwo wMesh.ystart) :=
  C3_boundary_face_fluxes wMesh MC wOne wTwo wOne rfl rfl rfl

/-- C6: `Div_par_fvv` applied to a spatially uniform `f` and `v = 0`
everywhere, with any non-negative wave-speed field, returns exactly zero at
every cell, for both values of `fixflux`. -/
theorem C6_uniform_f_zero_v (m : YMesh) (c : YCoords K) (sqrtK : K → K)
    (f v wave : ℤ → K) (F : K) (fixflux : Bool) (y : ℤ)
    (hf : ∀ z, f z = F) (hv : ∀ z, v z = 0) (hw : ∀ z, 0 ≤ wave z) :
    Div_par_fvv m c sqrtK MC f v wave fixflux y = 0 := by
  unfold Div_par_fvv
  apply Finset.sum_eq_zero
  intro j _
  unfold divParFvvContrib
  rw [rightFlux_zero_v m f v wave fixflux j hv,
    leftFlux_zero_v m f v wave fixflux j hv]
  simp

/-- Witness for C6: uniform `f = 1`, `v = 0`, `wave_speed = 1` on the slab
mesh `[0,3]`, evaluated at cell `1`. -/
theorem C6_uniform_f_zero_v_witness :
    Div_par_fvv wMesh wCoords wSqrt MC wOne wZero wOne true 1 = 0 :=
  C6_uniform_f_zero_v wMesh wCoords wSqrt wOne wZero wOne 1 true 1
    (fun _ => rfl) (fun _ => rfl) (fun _ => zero_le_one)

/-- A second slab mesh, incompatible with `wMesh`. -/
def wMesh2 : YMesh := ⟨0, 4, true, true, false⟩

/-- Trivial density operators for witnesses. -/
def wDensityOps : DensityOps ℚ ℤ :=
  ⟨fun _ _ _ => 0, fun _ _ _ _ => 0, fun _ _ _ => 0, fun _ _ _ => 0,
    fun _ _ => 0⟩

/-- Density options with every optional term disabled and source `= 1`. -/
def wDensityOpts : DensityOptions ℚ ℤ :=
  ⟨false, false, false, 1e-5, wOne⟩

/-- A state with density published and nothing else. -/
def wStateEmpty : DensityStateIn ℚ ℤ :=
  ⟨some wOne, none, none, none, none, none⟩

/-- A state with density, velocity and an external sound speed published. -/
def wStateSoundSet : DensityStateIn ℚ ℤ :=
  ⟨some wOne, none, some wTwo, some wTwo, some wOne, none⟩

/-- Trivial momentum operators for witnesses. -/
def wMomOps : MomentumOps ℚ ℤ :=
  ⟨fun _ _ _ => 0, fun _ _ _ _ _ => 0, fun _ _ => 0⟩

/-- A momentum-phase state with no published velocity (for the
required-field theorems). -/
def wMomStateNoVel : MomentumStateIn ℚ ℤ :=
  ⟨some wOne, some 1, none, none, none, some wOne, none, none⟩

/-- A momentum-phase state on the successful path: density, velocity and
temperature published, no external sound speed. -/
def wMomStateOk : MomentumStateIn ℚ ℤ :=
  ⟨some wOne, some 1, none, some wTwo, none, some wOne, none, none⟩

/-- C9: `Div_par_fvv` requires all three input fields to live on a mutually
compatible mesh; with incompatible fields the entry assertions fail with an
incompatible-fields error, and with compatible fields the computation
proceeds to the flux divergence. -/
theorem C9_compatibility_precondition (c : YCoords K) (sqrtK : K → K)
    (edges : Limiter K) (f v w : TaggedField K) (fixflux : Bool) :
    ((f.mesh ≠ v.mesh ∨ f.mesh ≠ w.mesh) →
      Div_par_fvv_checked c sqrtK edges f v w fixflux
        = .error .incompatibleFields)
    ∧ (f.mesh = v.mesh → f.mesh = w.mesh →
      Div_par_fvv_checked c sqrtK edges f v w fixflux
        = .ok (Div_par_fvv f.mesh c sqrtK edges f.data v.data w.data fixflux)) := by
  constructor
  · rintro (h | h)
    · simp [Div_par_fvv_checked, areFieldsCompatible, h]
    · by_cases hfv : f.mesh = v.mesh
      · simp [Div_par_fvv_checked, areFieldsCompatible, hfv, h]
        exact fun hvw => h (hfv.trans hvw)
      · simp [Div_par_fvv_checked, areFieldsCompatible, hfv]
  · intro h1 h2
    have hv : areFieldsCompatible f v = true := by
      simp [areFieldsCompatible, h1]
    have hw2 : areFieldsCompatible f w = true := by
      simp [areFieldsCompatible, h2]
    simp [Div_par_fvv_checked, hv, hw2]

/-- Witness for C9: fields on meshes `[0,3]` and `[0,4]` are rejected. -/
theorem C9_compatibility_precondition_witness :
    Div_par_fvv_checked wCoords wSqrt MC ⟨wMesh, wOne⟩ ⟨wMesh2, wTwo⟩
      ⟨wMesh, wOne⟩ true = .error .incompatibleFields :=
  (C9_compatibility_precondition wCoords wSqrt MC ⟨wMesh, wOne⟩
    ⟨wMesh2, wTwo⟩ ⟨wMesh, wOne⟩ true).1 (Or.inl (by decide))

/-- C2 (code bug): when the state has `sound_speed` set, the declaration
`Field3D sound_speed = get<Field3D>(state["sound_speed"]);` inside the `if`
branch of `EvolveDensity::finally` (line 155) shadows the outer variable, so
the outer `sound_speed` stays default-constructed (unallocated): the wave
speed handed on is not the externally supplied field, and `finally` fails on
the unallocated field instead of computing the parallel flux.  The species
temperature is indeed not read in that branch (second conjunct: no failure
even with temperature absent). -/
theorem C2_sound_speed_shadowing :
    finallySoundSpeedVar (K := ℚ) (ι := ℤ) wSqrt (some wTwo) (some wOne)
      = some FieldVal.unallocated
    ∧ finallySoundSpeedVar (K := ℚ) (ι := ℤ) wSqrt (some wTwo) none
      = some FieldVal.unallocated
    ∧ finallySoundSpeedVar (K := ℚ) (ι := ℤ) wSqrt (some wTwo) (some wOne)
      ≠ some (FieldVal.val wTwo)
    ∧ evolveDensity_finally wSqrt wSqrt 1 wOne wOne wOne wDensityOps
        wDensityOpts wStateSoundSet = none := by
  refine ⟨rfl, rfl, ?_, rfl⟩
  simp [finallySoundSpeedVar]

/-- C5: with `low_n_diffuse`, `low_n_diffuse_perp` and `hyper_z` disabled
and neither a velocity, a potential nor a density source published,
`EvolveDensity::finally` yields `ddt(N)` equal to the configured source
field exactly (every other term contributes zero). -/
theorem C5_ddtN_equals_source {ι : Type} (sqrtK logK : K → K) (sqrtMeMp : K)
    (dy g22 dz : ι → K) (ops : DensityOps K ι) (opts : DensityOptions K ι)
    (st : DensityStateIn K ι) (N : ι → K)
    (hld : opts.low_n_diffuse = false)
    (hldp : opts.low_n_diffuse_perp = false)
    (hhz : opts.hyper_z = false)
    (hN : st.density = some N) (hphi : st.phi = none)
    (hvel : st.velocity = none) (hds : st.density_source = none) :
    evolveDensity_finally sqrtK logK sqrtMeMp dy g22 dz ops opts st
      = some (fun y => opts.source y) := by
  simp only [evolveDensity_finally, hN, hphi, hvel, hds, hld, hldp, hhz,
    if_false, Bool.false_eq_true]
  refine congrArg some (funext fun y => ?_)
  simp

/-- Witness for C5: the concrete empty state with density published and
source `= 1`. -/
theorem C5_ddtN_equals_source_witness :
    evolveDensity_finally wSqrt wSqrt 1 wOne wOne wOne wDensityOps
      wDensityOpts wStateEmpty = some (fun y => wDensityOpts.source y) :=
  C5_ddtN_equals_source wSqrt wSqrt 1 wOne wOne wOne wDensityOps
    wDensityOpts wStateEmpty wOne rfl rfl rfl rfl rfl rfl rfl

/-- C8: `EvolveMomentum::finally` computes `ddt(NV)` as exactly: the
negative ExB divergence of NV when `fields.phi` is set (otherwise zero),
minus the self-advective flux `FV::Div_par_fvv(N, V, sqrt(T), fixflux=false)`
— always with `fixflux = false` — minus `Grad_par(P)` when and only when a
pressure is published, plus the momentum source when and only when one is
set (stated on the successful path, where no external sound speed is set and
the temperature is published). -/
theorem C8_momentum_ddt_composition {ι : Type} (sqrtK : K → K)
    (ops : MomentumOps K ι) (st : MomentumStateIn K ι) (NV N V T : ι → K)
    (hN : st.density = some N) (hV : st.velocity = some V)
    (hss : st.sound_speed = none) (hT : st.temperature = some T) :
    evolveMomentum_finally sqrtK ops st NV
      = some (fun y =>
          (match st.phi with
            | some phi => -(ops.divExB NV phi y)
            | none => 0)
          - ops.div_par_fvv N V (fun z => sqrtK (T z)) false y
          - (match st.pressure with
            | some P => ops.grad_par P y
            | none => 0)
          + (match st.momentum_source with
            | some ms => ms y
            | none => 0)) := by
  obtain ⟨d, A, phi, vel, ss, T', P, ms⟩ := st
  simp only at hN hV hss hT
  subst hN hV hss hT
  cases phi <;> cases P <;> cases ms <;>
    · refine congrArg some (funext fun y => ?_)
      simp [evolveMomentum_finally, finallySoundSpeedVar]
      try ring

/-- Witness for C8 at a concrete state (density, velocity, temperature
published; no potential, pressure or source). -/
theorem C8_momentum_ddt_composition_witness :
    evolveMomentum_finally wSqrt wMomOps wMomStateOk wOne
      = some (fun y =>
          (match wMomStateOk.phi with
            | some phi => -(wMomOps.divExB wOne phi y)
            | none => 0)
          - wMomOps.div_par_fvv wOne wTwo (fun z => wSqrt (wOne z)) false y
          - (match wMomStateOk.pressure with
            | some P => wMomOps.grad_par P y
            | none => 0)
          + (match wMomStateOk.momentum_source with
            | some ms => ms y
            | none => 0)) :=
  C8_momentum_ddt_composition wSqrt wMomOps wMomStateOk wOne
    wOne wTwo wOne rfl rfl rfl rfl

/-- C10: for the momentum component, density, velocity and atomic mass are
required: `transform` fails when density or `AA` is absent and succeeds when
both are present; `finally` fails when density or velocity is absent, and
when no `sound_speed` is set it requires the temperature; by contrast the
density component's `finally` tolerates an absent velocity. -/
theorem C10_required_state_fields {ι : Type} (sqrtK logK : K → K)
    (sqrtMeMp : K) (dy g22 dz : ι → K) (mops : MomentumOps K ι)
    (dops : DensityOps K ι) (dopts : DensityOptions K ι)
    (NV Nf : ι → K) (Af : K) (AAopt : Option K)
    (stm : MomentumStateIn K ι) (std : DensityStateIn K ι) :
    evolveMomentum_transform NV (none : Option (ι → K)) AAopt = none
    ∧ evolveMomentum_transform NV (some Nf) (none : Option K) = none
    ∧ (evolveMomentum_transform NV (some Nf) (some Af)).isSome = true
    ∧ (stm.density = none → evolveMomentum_finally sqrtK mops stm NV = none)
    ∧ (stm.velocity = none → evolveMomentum_finally sqrtK mops stm NV = none)
    ∧ (stm.sound_speed = none → stm.temperature = none →
        evolveMomentum_finally sqrtK mops stm NV = none)
    ∧ (std.density = some Nf → std.velocity = none →
        (evolveDensity_finally sqrtK logK sqrtMeMp dy g22 dz dops dopts
          std).isSome = true) := by
  refine ⟨rfl, rfl, rfl, fun h => ?_, fun h => ?_, fun h1 h2 => ?_,
    fun hN hv => ?_⟩
  · simp [evolveMomentum_finally, h]
  · cases hd : stm.density <;> simp [evolveMomentum_finally, h, hd]
  · cases hd : stm.density <;> cases hv : stm.velocity <;>
      simp [evolveMomentum_finally, finallySoundSpeedVar, h1, h2, hd, hv]
  · simp [evolveDensity_finally, hN, hv]

/-- Witness for C10: the momentum `finally` call aborts on the concrete
state with no published velocity. -/
theorem C10_required_state_fields_witness :
    evolveMomentum_finally wSqrt wMomOps wMomStateNoVel wOne = none :=
  (C10_required_state_fields wSqrt wSqrt 1 wOne wOne wOne wMomOps
    wDensityOps wDensityOpts wOne wOne 1 none wMomStateNoVel
    wStateEmpty).2.2.2.2.1 rfl

/-! ## Telescoping machinery for C7 -/

/-- The J·dy-weighted contribution pattern of one loop iteration `j` to
cell `y`: `gr j` is a right-face flux times its common factor, `gl j` a
left-face flux times its common factor. -/
def fluxKernel (gr gl : ℤ → K) (j y : ℤ) : K :=
  (if y = j then gr j - gl j else 0)
  + (if y = j + 1 then -gr j else 0)
  + (if y = j - 1 then gl j else 0)

lemma Icc_insert_top (a b : ℤ) (h : a ≤ b + 1) :
    Finset.Icc a (b + 1) = insert (b + 1) (Finset.Icc a b) := by
  ext x
  simp only [Finset.mem_Icc, Finset.mem_insert]
  omega

/-- The double sum of the kernel over the slab telescopes to the two
physical-boundary face terms. -/
lemma fluxKernel_telescope (gr gl : ℤ → K) (a b : ℤ) (hab : a ≤ b) :
    ∑ y in Finset.Icc a b, ∑ j in Finset.Icc a b, fluxKernel gr gl j y
      = gr b - gl a := by
  refine Int.le_induction
    (P := fun t => ∑ y in Finset.Icc a t, ∑ j in Finset.Icc a t,
      fluxKernel gr gl j y = gr t - gl a) ?_ ?_ b hab
  · simp only [Finset.Icc_self, Finset.sum_singleton, fluxKernel]
    rw [if_pos trivial, if_neg (by omega), if_neg (by omega)]
    ring
  · intro n hn ih
    have hmem : n + 1 ∉ Finset.Icc a n := by
      simp [Finset.mem_Icc]
    rw [Icc_insert_top a n (by omega), Finset.sum_insert hmem]
    have hrow : ∑ j in insert (n + 1) (Finset.Icc a n),
        fluxKernel gr gl j (n + 1)
        = (gr (n + 1) - gl (n + 1)) + -gr n := by
      rw [Finset.sum_insert hmem]
      have h1 : fluxKernel gr gl (n + 1) (n + 1) = gr (n + 1) - gl (n + 1) := by
        unfold fluxKernel
        rw [if_pos rfl, if_neg (by omega), if_neg (by omega)]
        ring
      have h2 : ∑ j in Finset.Icc a n, fluxKernel gr gl j (n + 1) = -gr n := by
        rw [Finset.sum_eq_single n]
        · unfold fluxKernel
          rw [if_neg (by omega), if_pos rfl, if_neg (by omega)]
          ring
        · intro j hj hjn
          have hj' := Finset.mem_Icc.mp hj
          unfold fluxKernel
          rw [if_neg (by omega), if_neg (by omega), if_neg (by omega)]
          ring
        · intro hn'
          exact absurd (Finset.mem_Icc.mpr ⟨hn, le_refl n⟩) hn'
      rw [h1, h2]
    have hcol : ∀ y ∈ Finset.Icc a n,
        ∑ j in insert (n + 1) (Finset.Icc a n), fluxKernel gr gl j y
          = fluxKernel gr gl (n + 1) y + ∑ j in Finset.Icc a n,
              fluxKernel gr gl j y := fun y _ => Finset.sum_insert hmem
    rw [Finset.sum_congr rfl hcol, Finset.sum_add_distrib]
    have hextra : ∑ y in Finset.Icc a n, fluxKernel gr gl (n + 1) y
        = gl (n + 1) := by
      rw [Finset.sum_eq_single n]
      · unfold fluxKernel
        rw [if_neg (by omega), if_neg (by omega), if_pos (by omega)]
        ring
      · intro y hy hyn
        have hy' := Finset.mem_Icc.mp hy
        unfold fluxKernel
        rw [if_neg (by omega), if_neg (by omega), if_neg (by omega)]
        ring
      · intro hn'
        exact absurd (Finset.mem_Icc.mpr ⟨hn, le_refl n⟩) hn'
    rw [hrow, hextra, ih]
    ring

/-- Multiplying a `flux * (common_factor / (dy * J))` term by the cell
volume `J * dy` recovers `flux * common_factor`. -/
lemma volCancel (A B x q : K) (hA : A ≠ 0) (hB : B ≠ 0) :
    A * B * (x * (q / (B * A))) = x * q := by
  field_simp
  ring

/-- Weighted by the cell volume factor `J(y) * dy(y)`, the contribution of
iteration `j` to cell `y` is exactly the flux kernel built from
`flux * common_factor` terms. -/
lemma weighted_contrib_eq_kernel (m : YMesh) (c : YCoords K) (sqrtK : K → K)
    (edges : Limiter K) (f v wave : ℤ → K) (fixflux : Bool)
    (hJ : ∀ y, c.J y ≠ 0) (hdy : ∀ y, c.dy y ≠ 0) (j y : ℤ) :
    (c.J y * c.dy y) * divParFvvContrib m c sqrtK edges f v wave fixflux j y
      = fluxKernel
          (fun i => rightFlux m edges f v wave fixflux i * commonFactorR c sqrtK i)
          (fun i => leftFlux m edges f v wave fixflux i * commonFactorL c sqrtK i)
          j y := by
  unfold divParFvvContrib fluxKernel fluxFactorRC fluxFactorRP fluxFactorLC
    fluxFactorLM
  rcases eq_or_ne y j with h1 | h1
  · subst h1
    rw [if_pos rfl, if_neg (by omega), if_neg (by omega), if_pos rfl,
      if_neg (by omega), if_neg (by omega)]
    rw [add_zero, add_zero, mul_sub, volCancel _ _ _ _ (hJ y) (hdy y),
      volCancel _ _ _ _ (hJ y) (hdy y)]
    simp
  · rcases eq_or_ne y (j + 1) with h2 | h2
    · subst h2
      rw [if_neg (by omega), if_pos rfl, if_neg (by omega),
        if_neg (by omega), if_pos rfl, if_neg (by omega)]
      field_simp
      rw [mul_comm (c.dy (j + 1)) (c.J (j + 1)), neg_div,
        mul_div_cancel_left₀ _ (mul_ne_zero (hJ (j + 1)) (hdy (j + 1)))]
    · rcases eq_or_ne y (j - 1) with h3 | h3
      · subst h3
        rw [if_neg (by omega), if_neg (by omega), if_pos rfl,
          if_neg (by omega), if_neg (by omega), if_pos rfl]
        field_simp
        rw [mul_comm (c.dy (j - 1)) (c.J (j - 1)),
          mul_div_cancel_left₀ _ (mul_ne_zero (hJ (j - 1)) (hdy (j - 1)))]
      · rw [if_neg h1, if_neg h2, if_neg h3, if_neg h1, if_neg h2, if_neg h3]
        ring

/-- C7: for every face the two accumulated contributions cancel in the
volume-weighted sum — the amount added to cell `j` times `J(j)*dy(j)` equals
the amount subtracted from cell `j+1` times `J(j+1)*dy(j+1)`, both equal to
the face flux times the shared `common_factor` (and symmetrically for left
faces) — and hence the `J*dy`-weighted sum of the result over the cells of a
non-periodic slab telescopes to the two physical-boundary face fluxes. -/
theorem C7_discrete_volume_conservation (m : YMesh) (c : YCoords K)
    (sqrtK : K → K) (edges : Limiter K) (f v wave : ℤ → K) (fixflux : Bool)
    (hJ : ∀ y, c.J y ≠ 0) (hdy : ∀ y, c.dy y ≠ 0)
    (hfirst : m.firstY = true) (hlast : m.lastY = true)
    (hper : m.periodicY = false) (hab : m.ystart ≤ m.yend) :
    (∀ j,
      (rightFlux m edges f v wave fixflux j * fluxFactorRC c sqrtK j)
          * (c.J j * c.dy j)
        = rightFlux m edges f v wave fixflux j * commonFactorR c sqrtK j
      ∧ (rightFlux m edges f v wave fixflux j * fluxFactorRP c sqrtK j)
          * (c.J (j + 1) * c.dy (j + 1))
        = rightFlux m edges f v wave fixflux j * commonFactorR c sqrtK j
      ∧ (leftFlux m edges f v wave fixflux j * fluxFactorLC c sqrtK j)
          * (c.J j * c.dy j)
        = leftFlux m edges f v wave fixflux j * commonFactorL c sqrtK j
      ∧ (leftFlux m edges f v wave fixflux j * fluxFactorLM c sqrtK j)
          * (c.J (j - 1) * c.dy (j - 1))
        = leftFlux m edges f v wave fixflux j * commonFactorL c sqrtK j)
    ∧ ∑ y in Finset.Icc m.ystart m.yend,
        (c.J y * c.dy y) * Div_par_fvv m c sqrtK edges f v wave fixflux y
      = rightFlux m edges f v wave fixflux m.yend * commonFactorR c sqrtK m.yend
        - leftFlux m edges f v wave fixflux m.ystart
            * commonFactorL c sqrtK m.ystart := by
  constructor
  · intro j
    refine ⟨?_, ?_, ?_, ?_⟩
    · unfold fluxFactorRC
      rw [mul_comm (c.J j) (c.dy j), mul_assoc,
        div_mul_cancel₀ _ (mul_ne_zero (hdy j) (hJ j))]
    · unfold fluxFactorRP
      rw [mul_comm (c.J (j + 1)) (c.dy (j + 1)), mul_assoc,
        div_mul_cancel₀ _ (mul_ne_zero (hdy (j + 1)) (hJ (j + 1)))]
    · unfold fluxFactorLC
      rw [mul_comm (c.J j) (c.dy j), mul_assoc,
        div_mul_cancel₀ _ (mul_ne_zero (hdy j) (hJ j))]
    · unfold fluxFactorLM
      rw [mul_comm (c.J (j - 1)) (c.dy (j - 1)), mul_assoc,
        div_mul_cancel₀ _ (mul_ne_zero (hdy (j - 1)) (hJ (j - 1)))]
  · have hys : ysOf m = m.ystart := by simp [ysOf, hfirst, hper]
    have hye : yeOf m = m.yend := by simp [yeOf, hlast, hper]
    have hcell : ∀ y,
        (c.J y * c.dy y) * Div_par_fvv m c sqrtK edges f v wave fixflux y
          = ∑ j in Finset.Icc m.ystart m.yend,
              fluxKernel
                (fun i => rightFlux m edges f v wave fixflux i
                            * commonFactorR c sqrtK i)
                (fun i => leftFlux m edges f v wave fixflux i
                            * commonFactorL c sqrtK i) j y := by
      intro y
      unfold Div_par_fvv
      rw [hys, hye, Finset.mul_sum]
      exact Finset.sum_congr rfl fun j _ =>
        weighted_contrib_eq_kernel m c sqrtK edges f v wave fixflux hJ hdy j y
    rw [Finset.sum_congr rfl fun y _ => hcell y]
    exact fluxKernel_telescope _ _ _ _ hab

/-- Witness for C7: the telescoped weighted sum on the concrete slab mesh
`[0,3]` with unit coordinates. -/
theorem C7_discrete_volume_conservation_witness :
    ∑ y in Finset.Icc wMesh.ystart wMesh.yend,
        (wCoords.J y * wCoords.dy y)
          * Div_par_fvv wMesh wCoords wSqrt MC wOne wTwo wOne false y
      = rightFlux wMesh MC wOne wTwo wOne false wMesh.yend
          * commonFactorR wCoords wSqrt wMesh.yend
        - leftFlux wMesh MC wOne wTwo wOne false wMesh.ystart
            * commonFactorL wCoords wSqrt wMesh.ystart :=
  (C7_discrete_volume_conservation wMesh wCoords wSqrt MC wOne wTwo wOne
    false (fun _ => one_ne_zero) (fun _ => one_ne_zero) rfl rfl rfl
    (by decide)).2

/-! ## Clamp lemmas for C4 -/

lemma lo_le_clampVal (x lo hi : K) (h : lo ≤ hi) : lo ≤ clampVal x lo hi := by
  unfold clampVal
  split_ifs <;> linarith

lemma clampVal_le_hi (x lo hi : K) (h : lo ≤ hi) : clampVal x lo hi ≤ hi := by
  unfold clampVal
  split_ifs <;> linarith

lemma clampVal_mono (lo hi x y : K) (h : lo ≤ hi) (hxy : x ≤ y) :
    clampVal x lo hi ≤ clampVal y lo hi := by
  unfold clampVal
  split_ifs <;> linarith

lemma clampVal_eq_self (x lo hi : K) (h1 : lo ≤ x) (h2 : x ≤ hi) :
    clampVal x lo hi = x := by
  unfold clampVal
  split_ifs <;> linarith

lemma clampVal_eq_hi (x lo hi : K) (h1 : lo ≤ hi) (h2 : hi ≤ x) :
    clampVal x lo hi = hi := by
  unfold clampVal
  split_ifs <;> linarith

lemma clampVal_eq_lo (x lo hi : K) (h1 : lo ≤ hi) (h2 : x ≤ lo) :
    clampVal x lo hi = lo := by
  unfold clampVal
  split_ifs <;> linarith

/-- C4 (amended): for every `density_floor > 0` the clamp keeps every cell
value inside `[1e-6*density_floor, density_floor]`, so the logarithm
argument lies in `[1, 1e6]` and is never non-positive; the factor
`log(density_floor / clamp(n, ...))` is monotonically non-increasing in `n`,
strictly increasing as `n` decreases within
`[1e-6*density_floor, density_floor]`, constant (equal to `log 1e6`) once
`n ≤ 1e-6*density_floor`, and equal to `0` whenever
`n ≥ density_floor`. -/
theorem C4_low_density_log_factor (df : ℝ) (hdf : 0 < df) :
    (∀ n, 1e-6 * df ≤ clampVal n (1e-6 * df) df
      ∧ clampVal n (1e-6 * df) df ≤ df)
    ∧ (∀ n, 1 ≤ logArg df n ∧ logArg df n ≤ 1e6)
    ∧ (∀ n1 n2, n1 ≤ n2 →
        Real.log (logArg df n2) ≤ Real.log (logArg df n1))
    ∧ (∀ n1 n2, 1e-6 * df ≤ n1 → n1 < n2 → n2 ≤ df →
        Real.log (logArg df n2) < Real.log (logArg df n1))
    ∧ (∀ n, df ≤ n → Real.log (logArg df n) = 0)
    ∧ (∀ n, n ≤ 1e-6 * df → Real.log (logArg df n) = Real.log 1e6) := by
  have hlo : (0 : ℝ) < 1e-6 * df := by
    have h6 : (0 : ℝ) < 1e-6 := by norm_num
    exact mul_pos h6 hdf
  have hlohi : (1e-6 : ℝ) * df ≤ df := by nlinarith
  have hc_lo : ∀ n : ℝ, 1e-6 * df ≤ clampVal n (1e-6 * df) df :=
    fun n => lo_le_clampVal n _ _ hlohi
  have hc_hi : ∀ n : ℝ, clampVal n (1e-6 * df) df ≤ df :=
    fun n => clampVal_le_hi n _ _ hlohi
  have hc_pos : ∀ n : ℝ, 0 < clampVal n (1e-6 * df) df :=
    fun n => lt_of_lt_of_le hlo (hc_lo n)
  have harg_pos : ∀ n : ℝ, 0 < logArg df n :=
    fun n => div_pos hdf (hc_pos n)
  refine ⟨fun n => ⟨hc_lo n, hc_hi n⟩, fun n => ⟨?_, ?_⟩,
    fun n1 n2 h => ?_, fun n1 n2 h1 h2 h3 => ?_, fun n h => ?_,
    fun n h => ?_⟩
  · exact (one_le_div (hc_pos n)).mpr (hc_hi n)
  · rw [logArg, div_le_iff (hc_pos n)]
    nlinarith [hc_lo n]
  · exact Real.log_le_log (harg_pos n2)
      (div_le_div_of_nonneg_left hdf.le (hc_pos n1)
        (clampVal_mono _ _ _ _ hlohi h))
  · refine Real.log_lt_log (harg_pos n2) ?_
    unfold logArg
    rw [clampVal_eq_self n1 _ _ h1 (le_trans h2.le h3),
      clampVal_eq_self n2 _ _ (le_trans h1 h2.le) h3]
    exact div_lt_div_of_pos_left hdf (lt_of_lt_of_le hlo h1) h2
  · rw [logArg, clampVal_eq_hi n _ _ hlohi h, div_self hdf.ne', Real.log_one]
  · rw [logArg, clampVal_eq_lo n _ _ hlohi h]
    congr 1
    rw [div_eq_iff hlo.ne']
    ring_nf

/-- Witness for C4: with `density_floor = 1` the logarithm argument at
`n = 1/2` lies in `[1, 1e6]`. -/
theorem C4_low_density_log_factor_witness :
    1 ≤ logArg (1 : ℝ) (1 / 2) ∧ logArg (1 : ℝ) (1 / 2) ≤ 1e6 :=
  (C4_low_density_log_factor 1 one_pos).2.1 (1 / 2)

/-- Counterexample for C4 as stated: the factor is NOT strictly increasing
all the way as `n` decreases below `density_floor` toward `0` — with
`density_floor = 1`, the inputs `n = 1e-8 < n = 1e-7` both lie below the
floor, yet the factor takes the same value at both (the clamp has saturated
at `1e-6 * density_floor`). -/
theorem C4_strict_increase_counterexample :
    (1e-8 : ℝ) < 1e-7 ∧ (1e-7 : ℝ) < 1
    ∧ Real.log (logArg (1 : ℝ) 1e-8) = Real.log (logArg (1 : ℝ) 1e-7) := by
  refine ⟨by norm_num, by norm_num, ?_⟩
  have h1 : clampVal (1e-8 : ℝ) (1e-6 * 1) 1 = 1e-6 * 1 :=
    clampVal_eq_lo _ _ _ (by norm_num) (by norm_num)
  have h2 : clampVal (1e-7 : ℝ) (1e-6 * 1) 1 = 1e-6 * 1 :=
    clampVal_eq_lo _ _ _ (by norm_num) (by norm_num)
  rw [logArg, logArg, h1, h2]

end Hermes
